import Mathlib

set_option autoImplicit false

namespace FheSecret

/-!
Shallow embedding of the `fhesecret` repository: the client-side secret
encoding helpers from `tasks/SecretVault.ts` and `ui/src/components/SecretApp.tsx`
(modelled at the level of UTF-8 byte sequences and 256-bit values), and the
`SecretVault` Solidity contract (modelled as a state machine with explicit
revert semantics).
-/

/-! ## Byte-level model of the ethers helpers used by the client -/

/-- Big-endian interpretation of a byte list as a natural number; this is the
value `BigInt(hexString)` denotes for the hex string spelling those bytes. -/
def beBytesToNat (bs : List Nat) : Nat :=
  bs.foldl (fun acc b => acc * 256 + b) 0

/-- Big-endian byte representation of a value at a fixed byte width,
least-significant byte last. -/
def natToBeBytes : Nat → Nat → List Nat
  | 0, _ => []
  | w + 1, v => natToBeBytes w (v / 256) ++ [v % 256]

/-- Model of `ethers.toBeHex(value, width)`: the zero-padded big-endian bytes,
failing (throwing) when the value does not fit in `width` bytes. -/
def toBeHex (value width : Nat) : Option (List Nat) :=
  if value < 256 ^ width then some (natToBeBytes width value) else none

/-- A UTF-8 continuation byte: `0x80 ≤ b ≤ 0xBF`. -/
def isUtf8Cont (b : Nat) : Bool := 0x80 ≤ b && b ≤ 0xBF

/-- Strict UTF-8 validity, mirroring what `ethers.toUtf8String` accepts with its
default (throwing) error handler: bad prefixes, missing continuation bytes,
overlong encodings, surrogate code points and out-of-range code points are all
rejected. -/
def isValidUtf8 : List Nat → Bool
  | [] => true
  | b :: rest =>
    if b ≤ 0x7F then isValidUtf8 rest
    else if 0xC2 ≤ b && b ≤ 0xDF then
      match rest with
      | c1 :: rest2 => isUtf8Cont c1 && isValidUtf8 rest2
      | [] => false
    else if b = 0xE0 then
      match rest with
      | c1 :: c2 :: rest2 =>
        (0xA0 ≤ c1 && c1 ≤ 0xBF) && isUtf8Cont c2 && isValidUtf8 rest2
      | _ => false
    else if (0xE1 ≤ b && b ≤ 0xEC) || b = 0xEE || b = 0xEF then
      match rest with
      | c1 :: c2 :: rest2 => isUtf8Cont c1 && isUtf8Cont c2 && isValidUtf8 rest2
      | _ => false
    else if b = 0xED then
      match rest with
      | c1 :: c2 :: rest2 =>
        (0x80 ≤ c1 && c1 ≤ 0x9F) && isUtf8Cont c2 && isValidUtf8 rest2
      | _ => false
    else if b = 0xF0 then
      match rest with
      | c1 :: c2 :: c3 :: rest2 =>
        (0x90 ≤ c1 && c1 ≤ 0xBF) && isUtf8Cont c2 && isUtf8Cont c3 && isValidUtf8 rest2
      | _ => false
    else if 0xF1 ≤ b && b ≤ 0xF3 then
      match rest with
      | c1 :: c2 :: c3 :: rest2 =>
        isUtf8Cont c1 && isUtf8Cont c2 && isUtf8Cont c3 && isValidUtf8 rest2
      | _ => false
    else if b = 0xF4 then
      match rest with
      | c1 :: c2 :: c3 :: rest2 =>
        (0x80 ≤ c1 && c1 ≤ 0x8F) && isUtf8Cont c2 && isUtf8Cont c3 && isValidUtf8 rest2
      | _ => false
    else false

/-- Maximum UTF-8 byte length of a secret, `MAX_SECRET_BYTES` in
`tasks/SecretVault.ts` and `SecretApp.tsx`. -/
def MAX_SECRET_BYTES : Nat := 31

/-- Model of `ethers.encodeBytes32String`: the UTF-8 bytes padded on the right
with zero bytes to 32 bytes; fails (throws) on more than 31 bytes. -/
def encodeBytes32String (bytes : List Nat) : Option (List Nat) :=
  if bytes.length > 31 then none
  else some (bytes ++ List.replicate (32 - bytes.length) 0)

/-- Drop every trailing zero byte: the backwards null-terminator scan in
`ethers.decodeBytes32String`. -/
def dropTrailingZeros (bs : List Nat) : List Nat :=
  (bs.reverse.dropWhile (fun b => b == 0)).reverse

/-- Model of `ethers.decodeBytes32String`: requires exactly 32 bytes whose final
byte is zero (the null terminator), strips all trailing zero bytes and decodes
the remainder as UTF-8, failing when `toUtf8String` would throw. -/
def decodeBytes32String (data : List Nat) : Option (List Nat) :=
  if data.length ≠ 32 then none
  else if data.getLast? ≠ some 0 then none
  else
    let stripped := dropTrailingZeros (data.take 31)
    if isValidUtf8 stripped then some stripped else none

/-- Errors thrown by `encodeSecretToUint256` in `tasks/SecretVault.ts`. -/
inductive EncodeError where
  | emptySecret
  | tooLong
deriving DecidableEq, Repr

/-- Function `encodeSecretToUint256` from `tasks/SecretVault.ts`, at the level of
the secret's UTF-8 byte sequence: reject empty and over-31-byte secrets, then
take the 256-bit value of the right-zero-padded 32-byte encoding. -/
def encodeSecretToUint256 (secret : List Nat) : Except EncodeError Nat :=
  let length := secret.length
  if length = 0 then .error .emptySecret
  else if length > MAX_SECRET_BYTES then .error .tooLong
  else
    match encodeBytes32String secret with
    | some encoded => .ok (beBytesToNat encoded)
    | none => .error .tooLong

/-- Function `decodeSecretFromUint256` from `tasks/SecretVault.ts`:
`decodeBytes32String(toBeHex(value, 32))`. -/
def decodeSecretFromUint256 (value : Nat) : Option (List Nat) :=
  match toBeHex value 32 with
  | some hexValue => decodeBytes32String hexValue
  | none => none

/-- Model of `ethers.getAddress` at the value level: the checksummed address
string denotes the same 160-bit value as its 20 bytes. -/
def getAddress (bytes : List Nat) : Nat := beBytesToNat bytes

/-- The address-recovery step of `task:decrypt-secret`:
`getAddress(toBeHex(BigInt(clearKey), 20))`. -/
def decodeAddressFromUint (value : Nat) : Option Nat :=
  (toBeHex value 20).map getAddress

/-- Function `getUtf8ByteLength` from `SecretApp.tsx`, at byte level. -/
def getUtf8ByteLength (secret : List Nat) : Nat := secret.length

/-- The UI validity check `isSecretValid` from `SecretApp.tsx`:
`secretBytes > 0 && secretBytes <= MAX_SECRET_BYTES`. -/
def isSecretValid (secret : List Nat) : Bool :=
  decide (getUtf8ByteLength secret > 0) && decide (getUtf8ByteLength secret ≤ MAX_SECRET_BYTES)

/-- Result of the UI helper `decodeSecretValue`: either decoded text bytes or
the raw 32-byte hex fallback. -/
inductive DecodedSecret where
  | text (bytes : List Nat)
  | hex (bytes : List Nat)
deriving DecidableEq, Repr

/-- Function `decodeSecretValue` from `SecretApp.tsx`: compute
`toBeHex(value, 32)` (throwing when the value exceeds 256 bits, which is outside
the try block), try `decodeBytes32String` on it and fall back to the raw hex on
any decoding error. -/
def decodeSecretValue (value : Nat) : Option DecodedSecret :=
  match toBeHex value 32 with
  | none => none
  | some secretHex =>
    match decodeBytes32String secretHex with
    | some s => some (.text s)
    | none => some (.hex secretHex)

/-! ## Model of the `SecretVault` contract (`contracts/SecretVault.sol`) -/

/-- A stored entry of `SecretVault`: a ciphertext handle for the encrypted
random address, a ciphertext handle for the encrypted secret, and the creation
timestamp. Handles are opaque fixed-size references, modelled as naturals. -/
structure SecretEntry where
  encryptedKey : Nat
  encryptedSecret : Nat
  createdAt : Nat
deriving DecidableEq, Repr

/-- An ACL grant `(handle, principal)` recorded by `FHE.allow` /
`FHE.allowThis`; the principal is an account or contract address. -/
structure AclGrant where
  handle : Nat
  principal : Nat
deriving DecidableEq, Repr

/-- The `SecretStored(owner, index, timestamp)` event. -/
structure SecretStoredEvent where
  owner : Nat
  index : Nat
  timestamp : Nat
deriving DecidableEq, Repr

/-- Contract storage (`mapping(address => SecretEntry[]) private entries`)
together with the observable side effects of calls: the ACL grants issued to
the coprocessor and the emitted event log. -/
structure VaultState where
  entries : Nat → List SecretEntry
  acl : List AclGrant
  events : List SecretStoredEvent

/-- The state of a freshly deployed `SecretVault`. -/
def initialVaultState : VaultState :=
  { entries := fun _ => [], acl := [], events := [] }

/-- Transaction context: `msg.sender`, `address(this)` and `block.timestamp`. -/
structure Env where
  sender : Nat
  thisAddr : Nat
  timestamp : Nat
deriving DecidableEq, Repr

/-- Reverts of the contract: an invalid input proof in `FHE.fromExternal`, or
the out-of-bounds array access in `getSecretEntry` (the spec's
`IndexOutOfRange`). -/
inductive VaultError where
  | invalidProof
  | indexOutOfRange
deriving DecidableEq, Repr

/-- The coprocessor interface `FHE.fromExternal`: verify the input proof for an
external ciphertext handle and materialize an internal handle, reverting
(`none`) on an invalid proof. The verification itself is an opaque external
service, so it is a parameter of the model. -/
def FromExternal : Type := Nat → List Nat → Option Nat

/-- Function `storeSecret` of `SecretVault.sol`, mirroring the statement order
of the source: materialize the key handle, materialize the secret handle, push
the entry, compute the index, issue the four ACL grants, emit the event. An
`Except.error` result models a revert of the whole transaction. -/
def storeSecret (fromExternal : FromExternal) (env : Env) (st : VaultState)
    (encryptedKey encryptedSecret : Nat) (inputProof : List Nat) :
    Except VaultError VaultState :=
  match fromExternal encryptedKey inputProof with
  | none => .error .invalidProof
  | some key =>
    match fromExternal encryptedSecret inputProof with
    | none => .error .invalidProof
    | some secret =>
      let newEntries : Nat → List SecretEntry := fun a =>
        if a = env.sender then
          st.entries env.sender ++ [⟨key, secret, env.timestamp⟩]
        else st.entries a
      let index := (newEntries env.sender).length - 1
      .ok
        { entries := newEntries
          acl := st.acl ++
            [⟨key, env.thisAddr⟩, ⟨secret, env.thisAddr⟩,
             ⟨key, env.sender⟩, ⟨secret, env.sender⟩]
          events := st.events ++ [⟨env.sender, index, env.timestamp⟩] }

/-- Function `getSecretCount` of `SecretVault.sol`: `entries[owner].length`.
A view function; it never reverts. -/
def getSecretCount (st : VaultState) (owner : Nat) : Nat :=
  (st.entries owner).length

/-- Function `getSecretEntry` of `SecretVault.sol`: `entries[owner][index]`
reverts when `index` is out of bounds, otherwise returns the entry's fields. -/
def getSecretEntry (st : VaultState) (owner index : Nat) :
    Except VaultError (Nat × Nat × Nat) :=
  match (st.entries owner)[index]? with
  | some entry => .ok (entry.encryptedKey, entry.encryptedSecret, entry.createdAt)
  | none => .error .indexOutOfRange

/-- An external call to the vault contract. -/
inductive Call where
  | store (env : Env) (encryptedKey encryptedSecret : Nat) (inputProof : List Nat)
  | count (caller owner : Nat)
  | entry (caller owner index : Nat)
deriving DecidableEq, Repr

/-- The observable return value of a call. -/
inductive Output where
  | unit
  | num (n : Nat)
  | entry (e : Nat × Nat × Nat)
  | reverted (err : VaultError)
deriving DecidableEq, Repr

/-- Transaction semantics: run one call; a reverted call leaves the contract
state unchanged. -/
def step (fromExternal : FromExternal) (st : VaultState) : Call → VaultState × Output
  | .store env ek es proof =>
    match storeSecret fromExternal env st ek es proof with
    | .ok st' => (st', .unit)
    | .error e => (st, .reverted e)
  | .count _ owner => (st, .num (getSecretCount st owner))
  | .entry _ owner index =>
    match getSecretEntry st owner index with
    | .ok e => (st, .entry e)
    | .error err => (st, .reverted err)

/-- Run a sequence of calls from a state. -/
def exec (fromExternal : FromExternal) (st : VaultState) : List Call → VaultState
  | [] => st
  | c :: cs => exec fromExternal (step fromExternal st c).1 cs

/-- Whether a call is a `storeSecret` transaction submitted by `owner`. -/
def Call.isStoreBy (owner : Nat) : Call → Bool
  | .store env _ _ _ => env.sender == owner
  | _ => false

/-- Count the successful `storeSecret` calls by `owner` along a trace. -/
def successfulStoresBy (fromExternal : FromExternal) (owner : Nat)
    (st : VaultState) : List Call → Nat
  | [] => 0
  | c :: cs =>
    (if Call.isStoreBy owner c && ((step fromExternal st c).2 == Output.unit)
      then 1 else 0)
      + successfulStoresBy fromExternal owner (step fromExternal st c).1 cs

/-- A concrete coprocessor for witnesses: every proof verifies, and the
materialized internal handle is the external handle plus 100. -/
def demoFromExternal : FromExternal := fun ext _ => some (ext + 100)

/-- A concrete transaction context for witnesses. -/
def demoEnv : Env := { sender := 5, thisAddr := 9, timestamp := 1000 }

/-- The state after one successful `storeSecret` by `demoEnv.sender` from the
freshly deployed state. -/
def demoStoredState : VaultState :=
  (step demoFromExternal initialVaultState (Call.store demoEnv 1 2 [3])).1

/-- A second transaction context, for a different owner. -/
def demoEnv2 : Env := { sender := 6, thisAddr := 9, timestamp := 2000 }

/-! ## Helper lemmas on byte encodings -/

theorem beBytesToNat_concat (xs : List Nat) (b : Nat) :
    beBytesToNat (xs ++ [b]) = beBytesToNat xs * 256 + b := by
  simp [beBytesToNat, List.foldl_append]

theorem natToBeBytes_length (w : Nat) : ∀ v, (natToBeBytes w v).length = w := by
  induction w with
  | zero => intro v; simp [natToBeBytes]
  | succ n ih => intro v; simp [natToBeBytes, ih]

theorem beBytesToNat_lt (bs : List Nat) (h : ∀ b ∈ bs, b < 256) :
    beBytesToNat bs < 256 ^ bs.length := by
  induction bs using List.reverseRecOn with
  | nil => simp [beBytesToNat]
  | append_singleton xs b ih =>
    rw [beBytesToNat_concat]
    have hb : b < 256 := h b (by simp)
    have hxs : beBytesToNat xs < 256 ^ xs.length :=
      ih (fun x hx => h x (by simp [hx]))
    simp only [List.length_append, List.length_singleton]
    calc beBytesToNat xs * 256 + b < (beBytesToNat xs + 1) * 256 := by omega
      _ ≤ 256 ^ xs.length * 256 := Nat.mul_le_mul_right _ hxs
      _ = 256 ^ (xs.length + 1) := by ring

theorem beBytesToNat_natToBeBytes (w : Nat) :
    ∀ v, v < 256 ^ w → beBytesToNat (natToBeBytes w v) = v := by
  induction w with
  | zero =>
    intro v hv
    simp [natToBeBytes, beBytesToNat]
    omega
  | succ n ih =>
    intro v hv
    have hdiv : v / 256 < 256 ^ n := by
      rw [Nat.div_lt_iff_lt_mul (by norm_num)]
      calc v < 256 ^ (n + 1) := hv
        _ = 256 ^ n * 256 := by ring
    rw [natToBeBytes, beBytesToNat_concat, ih (v / 256) hdiv]
    omega

theorem natToBeBytes_beBytesToNat (bs : List Nat) (h : ∀ b ∈ bs, b < 256) :
    natToBeBytes bs.length (beBytesToNat bs) = bs := by
  induction bs using List.reverseRecOn with
  | nil => simp [natToBeBytes, beBytesToNat]
  | append_singleton xs b ih =>
    have hb : b < 256 := h b (by simp)
    rw [beBytesToNat_concat]
    simp only [List.length_append, List.length_singleton]
    have hdiv : (beBytesToNat xs * 256 + b) / 256 = beBytesToNat xs := by omega
    have hmod : (beBytesToNat xs * 256 + b) % 256 = b := by omega
    rw [natToBeBytes, hdiv, hmod, ih (fun x hx => h x (by simp [hx]))]

theorem dropTrailingZeros_append_replicate (s : List Nat) (k : Nat) :
    dropTrailingZeros (s ++ List.replicate k 0) = dropTrailingZeros s := by
  unfold dropTrailingZeros
  rw [List.reverse_append, List.reverse_replicate]
  congr 1
  induction k with
  | zero => simp
  | succ n ih => simp [List.replicate_succ, List.dropWhile_cons, ih]

theorem dropTrailingZeros_last_ne_zero (s : List Nat) (hne : s ≠ [])
    (h : s.getLast? ≠ some 0) : dropTrailingZeros s = s := by
  obtain ⟨xs, b, rfl⟩ : ∃ xs b, s = xs ++ [b] := by
    rcases List.eq_nil_or_concat s with h0 | ⟨xs, b, hc⟩
    · exact absurd h0 hne
    · exact ⟨xs, b, by rw [hc, List.concat_eq_append]⟩
  have hb : b ≠ 0 := by
    intro hb0
    apply h
    rw [hb0, List.getLast?_concat]
  unfold dropTrailingZeros
  rw [List.reverse_append]
  simp [List.dropWhile_cons, hb]

theorem encodeSecretToUint256_ok (secret : List Nat)
    (h1 : secret.length ≠ 0) (h2 : secret.length ≤ 31) :
    encodeSecretToUint256 secret =
      .ok (beBytesToNat (secret ++ List.replicate (32 - secret.length) 0)) := by
  have h3 : ¬ secret.length > MAX_SECRET_BYTES := by
    simp only [MAX_SECRET_BYTES]; omega
  have h4 : ¬ secret.length > 31 := by omega
  simp [encodeSecretToUint256, encodeBytes32String, h1, h3, h4]

theorem decodeSecretFromUint256_encoded (secret : List Nat)
    (h1 : 1 ≤ secret.length) (h2 : secret.length ≤ 31)
    (hbytes : ∀ b ∈ secret, b < 256)
    (hutf8 : isValidUtf8 secret = true)
    (hlast : secret.getLast? ≠ some 0) :
    decodeSecretFromUint256
      (beBytesToNat (secret ++ List.replicate (32 - secret.length) 0)) =
      some secret := by
  have hk : 32 - secret.length = (31 - secret.length) + 1 := by omega
  have hEeq : secret ++ List.replicate (32 - secret.length) 0 =
      (secret ++ List.replicate (31 - secret.length) 0) ++ [0] := by
    rw [hk, List.replicate_succ', List.append_assoc]
  have hEbytes : ∀ b ∈ secret ++ List.replicate (32 - secret.length) 0, b < 256 := by
    intro b hb
    rcases List.mem_append.mp hb with h | h
    · exact hbytes b h
    · have := List.eq_of_mem_replicate h; omega
  have hLlen : (secret ++ List.replicate (31 - secret.length) 0).length = 31 := by
    simp only [List.length_append, List.length_replicate]; omega
  have hElen : (secret ++ List.replicate (32 - secret.length) 0).length = 32 := by
    simp only [List.length_append, List.length_replicate]; omega
  have hv : beBytesToNat (secret ++ List.replicate (32 - secret.length) 0) < 256 ^ 32 := by
    have := beBytesToNat_lt _ hEbytes
    rwa [hElen] at this
  have hback : natToBeBytes 32
      (beBytesToNat (secret ++ List.replicate (32 - secret.length) 0)) =
      secret ++ List.replicate (32 - secret.length) 0 := by
    have := natToBeBytes_beBytesToNat _ hEbytes
    rwa [hElen] at this
  have hdecode : decodeBytes32String
      (secret ++ List.replicate (32 - secret.length) 0) = some secret := by
    unfold decodeBytes32String
    rw [if_neg (by rw [hElen]; omega)]
    rw [if_neg (by rw [hEeq, List.getLast?_concat]; simp)]
    have htake : (secret ++ List.replicate (32 - secret.length) 0).take 31 =
        secret ++ List.replicate (31 - secret.length) 0 := by
      rw [hEeq, List.take_left' hLlen]
    rw [htake]
    have hne : secret ≠ [] := by
      intro h0; rw [h0] at h1; simp at h1
    rw [dropTrailingZeros_append_replicate,
      dropTrailingZeros_last_ne_zero secret hne hlast]
    simp [hutf8]
  have hhex : toBeHex (beBytesToNat (secret ++ List.replicate (32 - secret.length) 0)) 32 =
      some (secret ++ List.replicate (32 - secret.length) 0) := by
    unfold toBeHex
    rw [if_pos hv, hback]
  unfold decodeSecretFromUint256
  rw [hhex]
  exact hdecode

/-! ## Claim C1 -/

/-- Claim C1 is false as stated: the one-byte secret consisting of the single
zero byte (the string made of one NUL character) has UTF-8 byte length 1, is
accepted by `encodeSecretToUint256` (giving the value 0), but decodes back to
the empty byte sequence, not to the original secret. -/
theorem roundTrip_counterexample :
    encodeSecretToUint256 [0] = Except.ok 0 ∧
    decodeSecretFromUint256 0 = some [] ∧ ([] : List Nat) ≠ [0] := by
  refine ⟨by rfl, by decide, by decide⟩

/-- Claim C1 (amended): for every secret whose UTF-8 byte sequence has length
between 1 and 31 and does not end in a zero byte, the client-side encode/decode
pair round-trips; and every 160-bit address value is recovered unchanged by the
store-then-decrypt path (`getAddress(toBeHex(clearKey, 20))`). -/
theorem roundTrip_amended (secret : List Nat)
    (h1 : 1 ≤ secret.length) (h2 : secret.length ≤ 31)
    (hbytes : ∀ b ∈ secret, b < 256)
    (hutf8 : isValidUtf8 secret = true)
    (hlast : secret.getLast? ≠ some 0) :
    (∃ v, encodeSecretToUint256 secret = Except.ok v ∧
        decodeSecretFromUint256 v = some secret) ∧
    ∀ a, a < 2 ^ 160 → decodeAddressFromUint a = some a := by
  constructor
  · refine ⟨beBytesToNat (secret ++ List.replicate (32 - secret.length) 0), ?_, ?_⟩
    · exact encodeSecretToUint256_ok secret (by omega) h2
    · exact decodeSecretFromUint256_encoded secret h1 h2 hbytes hutf8 hlast
  · intro a ha
    have ha' : a < 256 ^ 20 := by
      have : (256 : Nat) ^ 20 = 2 ^ 160 := by
        rw [show (256 : Nat) = 2 ^ 8 by norm_num, ← pow_mul]
      omega
    unfold decodeAddressFromUint toBeHex getAddress
    rw [if_pos ha']
    simp [beBytesToNat_natToBeBytes 20 a ha']

/-- Witness for the amended claim C1, at the concrete secret "hi" = bytes
`[104, 105]` and the concrete address value 123456789. -/
theorem roundTrip_amended_witness :
    (∃ v, encodeSecretToUint256 [104, 105] = Except.ok v ∧
        decodeSecretFromUint256 v = some [104, 105]) ∧
    decodeAddressFromUint 123456789 = some 123456789 :=
  ⟨(roundTrip_amended [104, 105] (by decide) (by decide) (by decide)
      (by decide) (by decide)).1,
   (roundTrip_amended [104, 105] (by decide) (by decide) (by decide)
      (by decide) (by decide)).2 123456789 (by norm_num)⟩

/-! ## Helper lemmas on the contract model -/

theorem storeSecret_ok_elim {f : FromExternal} {env : Env} {st st' : VaultState}
    {ek es : Nat} {p : List Nat}
    (h : storeSecret f env st ek es p = Except.ok st') :
    ∃ k s, f ek p = some k ∧ f es p = some s ∧
      st'.entries env.sender = st.entries env.sender ++ [⟨k, s, env.timestamp⟩] ∧
      (∀ a, a ≠ env.sender → st'.entries a = st.entries a) ∧
      st'.acl = st.acl ++
        [⟨k, env.thisAddr⟩, ⟨s, env.thisAddr⟩, ⟨k, env.sender⟩, ⟨s, env.sender⟩] ∧
      st'.events = st.events ++
        [⟨env.sender, (st.entries env.sender).length, env.timestamp⟩] := by
  unfold storeSecret at h
  cases hek : f ek p with
  | none => rw [hek] at h; exact absurd h (by simp)
  | some k =>
    rw [hek] at h
    cases hes : f es p with
    | none => rw [hes] at h; exact absurd h (by simp)
    | some s =>
      rw [hes] at h
      simp only [Except.ok.injEq] at h
      refine ⟨k, s, rfl, rfl, ?_, ?_, ?_, ?_⟩
      · rw [← h]; simp
      · intro a ha; rw [← h]; simp [ha]
      · rw [← h]
      · rw [← h]; simp

theorem storeSecret_error_of_proofFail {f : FromExternal} {env : Env}
    {st : VaultState} {ek es : Nat} {p : List Nat}
    (h : f ek p = none ∨ f es p = none) :
    storeSecret f env st ek es p = Except.error VaultError.invalidProof := by
  unfold storeSecret
  cases hek : f ek p with
  | none => rfl
  | some k =>
    cases hes : f es p with
    | none => rfl
    | some s =>
      rcases h with h | h
      · rw [hek] at h; exact absurd h (by simp)
      · rw [hes] at h; exact absurd h (by simp)

/-! ## Claim C2 -/

/-- Claim C2: when proof verification fails inside `storeSecret`, the whole
call reverts with `InvalidProof` and nothing changes: every owner's count,
every existing entry, and the ACL grant list are exactly as before. -/
theorem storeSecret_atomic (f : FromExternal) (env : Env) (st : VaultState)
    (ek es : Nat) (p : List Nat)
    (h : f ek p = none ∨ f es p = none) :
    storeSecret f env st ek es p = Except.error VaultError.invalidProof ∧
    (step f st (Call.store env ek es p)).1 = st ∧
    (∀ owner, getSecretCount (step f st (Call.store env ek es p)).1 owner =
      getSecretCount st owner) ∧
    (∀ owner i, getSecretEntry (step f st (Call.store env ek es p)).1 owner i =
      getSecretEntry st owner i) ∧
    ((step f st (Call.store env ek es p)).1).acl = st.acl := by
  have herr := @storeSecret_error_of_proofFail f env st ek es p h
  refine ⟨herr, ?_, ?_, ?_, ?_⟩ <;> simp [step, herr]

/-- Witness for claim C2: with a coprocessor that rejects every proof, a
concrete store attempt reverts and leaves the deployed state unchanged. -/
theorem storeSecret_atomic_witness :
    storeSecret (fun _ _ => none) demoEnv initialVaultState 1 2 [3] =
      Except.error VaultError.invalidProof ∧
    (step (fun _ _ => none) initialVaultState (Call.store demoEnv 1 2 [3])).1 =
      initialVaultState :=
  ⟨(storeSecret_atomic (fun _ _ => none) demoEnv initialVaultState 1 2 [3]
      (Or.inl rfl)).1,
   (storeSecret_atomic (fun _ _ => none) demoEnv initialVaultState 1 2 [3]
      (Or.inl rfl)).2.1⟩

/-! ## Claim C3 -/

/-- Claim C3: every successful `storeSecret` grants decrypt capability on both
materialized handles to exactly two principals — the vault contract
(`address(this)`, via `FHE.allowThis`) and the submitter (`msg.sender`, via
`FHE.allow`) — and no call of the contract ever creates a grant for any other
principal. -/
theorem acl_grants_exact (f : FromExternal) :
    (∀ env st ek es p st', storeSecret f env st ek es p = Except.ok st' →
      ∃ k s, f ek p = some k ∧ f es p = some s ∧
        st'.acl = st.acl ++
          [⟨k, env.thisAddr⟩, ⟨s, env.thisAddr⟩, ⟨k, env.sender⟩, ⟨s, env.sender⟩]) ∧
    (∀ st c g, g ∈ ((step f st c).1).acl →
      g ∈ st.acl ∨ ∃ env ek es p, c = Call.store env ek es p ∧
        (g.principal = env.thisAddr ∨ g.principal = env.sender)) := by
  constructor
  · intro env st ek es p st' h
    obtain ⟨k, s, hk, hs, _, _, hacl, _⟩ := storeSecret_ok_elim h
    exact ⟨k, s, hk, hs, hacl⟩
  · intro st c g hg
    cases c with
    | count caller owner => exact Or.inl hg
    | entry caller owner index =>
      cases he : getSecretEntry st owner index <;>
        · rw [step] at hg; rw [he] at hg; exact Or.inl hg
    | store env ek es p =>
      cases hs : storeSecret f env st ek es p with
      | error e =>
        rw [step, hs] at hg
        exact Or.inl hg
      | ok st' =>
        rw [step, hs] at hg
        obtain ⟨k, s, _, _, _, _, hacl, _⟩ := storeSecret_ok_elim hs
        rw [hacl] at hg
        rcases List.mem_append.mp hg with h | h
        · exact Or.inl h
        · refine Or.inr ⟨env, ek, es, p, rfl, ?_⟩
          simp only [List.mem_cons, List.mem_singleton] at h
          rcases h with rfl | rfl | rfl | rfl | h
          · exact Or.inl rfl
          · exact Or.inl rfl
          · exact Or.inr rfl
          · exact Or.inr rfl
          · exact absurd h (List.not_mem_nil g)

/-- Witness for claim C3: the concrete store from the deployed state creates
exactly the four grants, on handles 101 and 102, for the vault address and the
submitter. -/
theorem acl_grants_exact_witness :
    ∃ k s, demoFromExternal 1 [3] = some k ∧ demoFromExternal 2 [3] = some s ∧
      demoStoredState.acl = initialVaultState.acl ++
        [⟨k, demoEnv.thisAddr⟩, ⟨s, demoEnv.thisAddr⟩,
         ⟨k, demoEnv.sender⟩, ⟨s, demoEnv.sender⟩] :=
  (acl_grants_exact demoFromExternal).1 demoEnv initialVaultState 1 2 [3]
    demoStoredState rfl

/-! ## Claim C4 -/

theorem count_step (f : FromExternal) (st : VaultState) (c : Call) (owner : Nat) :
    getSecretCount (step f st c).1 owner =
      getSecretCount st owner +
        (if Call.isStoreBy owner c && ((step f st c).2 == Output.unit)
          then 1 else 0) := by
  cases c with
  | count caller o => simp [step, Call.isStoreBy]
  | entry caller o i =>
    cases hg : getSecretEntry st o i <;> simp [step, hg, Call.isStoreBy]
  | store env ek es p =>
    cases hs : storeSecret f env st ek es p with
    | error e => simp [step, hs, Call.isStoreBy]
    | ok st' =>
      obtain ⟨k, s, _, _, hsender, hother, _, _⟩ := storeSecret_ok_elim hs
      by_cases ho : env.sender = owner
      · subst ho
        simp [step, hs, Call.isStoreBy, getSecretCount, hsender]
      · have hne : owner ≠ env.sender := fun hh => ho hh.symm
        simp [step, hs, Call.isStoreBy, ho, getSecretCount, hother owner hne]

theorem count_exec (f : FromExternal) (owner : Nat) (cs : List Call) :
    ∀ st, getSecretCount (exec f st cs) owner =
      getSecretCount st owner + successfulStoresBy f owner st cs := by
  induction cs with
  | nil => intro st; simp [exec, successfulStoresBy]
  | cons c cs ih =>
    intro st
    rw [exec, successfulStoresBy, ih, count_step f st c owner]
    omega

/-- Claim C4: each successful `storeSecret` by an owner increases
`getSecretCount(owner)` by exactly 1; `getSecretCount` never reverts; and along
any trace from deployment in which an owner makes no successful store, that
owner's count is 0. -/
theorem getSecretCount_spec (f : FromExternal) :
    (∀ env st ek es p st', storeSecret f env st ek es p = Except.ok st' →
      getSecretCount st' env.sender = getSecretCount st env.sender + 1) ∧
    (∀ st caller owner, step f st (Call.count caller owner) =
      (st, Output.num (getSecretCount st owner))) ∧
    (∀ owner cs, successfulStoresBy f owner initialVaultState cs = 0 →
      getSecretCount (exec f initialVaultState cs) owner = 0) := by
  refine ⟨?_, ?_, ?_⟩
  · intro env st ek es p st' h
    obtain ⟨k, s, _, _, hsender, _, _, _⟩ := storeSecret_ok_elim h
    simp [getSecretCount, hsender]
  · intro st caller owner
    rfl
  · intro owner cs h
    rw [count_exec f owner cs initialVaultState, h]
    simp [getSecretCount, initialVaultState]

/-- Witness for claim C4: the concrete successful store raises the submitter's
count from 0 to 1, the count call is a pure read, and along a trace holding
only a store by a different owner the count stays 0. -/
theorem getSecretCount_spec_witness :
    getSecretCount demoStoredState demoEnv.sender =
      getSecretCount initialVaultState demoEnv.sender + 1 ∧
    step demoFromExternal initialVaultState (Call.count 7 5) =
      (initialVaultState, Output.num (getSecretCount initialVaultState 5)) ∧
    getSecretCount
      (exec demoFromExternal initialVaultState [Call.store demoEnv2 1 2 [3]]) 5 = 0 :=
  ⟨(getSecretCount_spec demoFromExternal).1 demoEnv initialVaultState 1 2 [3]
      demoStoredState rfl,
   (getSecretCount_spec demoFromExternal).2.1 initialVaultState 7 5,
   (getSecretCount_spec demoFromExternal).2.2 5 [Call.store demoEnv2 1 2 [3]]
      (by decide)⟩

/-! ## Claim C5 -/

/-- Claim C5: `getSecretEntry(owner, index)` reverts with `IndexOutOfRange`
exactly when `index ≥ getSecretCount(owner)`, and otherwise returns the stored
entry's `(encryptedKey, encryptedSecret, createdAt)`. -/
theorem getSecretEntry_spec (st : VaultState) (owner index : Nat) :
    (getSecretEntry st owner index = Except.error VaultError.indexOutOfRange ↔
      getSecretCount st owner ≤ index) ∧
    (index < getSecretCount st owner →
      ∃ e, (st.entries owner)[index]? = some e ∧
        getSecretEntry st owner index =
          Except.ok (e.encryptedKey, e.encryptedSecret, e.createdAt)) := by
  constructor
  · cases hg : (st.entries owner)[index]? with
    | none =>
      have hlen : (st.entries owner).length ≤ index := by
        by_contra hlt
        push_neg at hlt
        rw [List.getElem?_eq_getElem hlt] at hg
        exact Option.noConfusion hg
      simp [getSecretEntry, hg, getSecretCount, hlen]
    | some e =>
      have hlt : index < (st.entries owner).length := by
        by_contra hge
        push_neg at hge
        rw [List.getElem?_eq_none hge] at hg
        exact Option.noConfusion hg
      simp [getSecretEntry, hg, getSecretCount]
      omega
  · intro hlt
    unfold getSecretCount at hlt
    obtain ⟨e, hg⟩ : ∃ e, (st.entries owner)[index]? = some e :=
      ⟨_, List.getElem?_eq_getElem hlt⟩
    exact ⟨e, hg, by simp [getSecretEntry, hg]⟩

/-- Witness for claim C5: in the concrete stored state, index 0 is readable and
index 1 reverts with `IndexOutOfRange`. -/
theorem getSecretEntry_spec_witness :
    (∃ e, (demoStoredState.entries 5)[0]? = some e ∧
      getSecretEntry demoStoredState 5 0 =
        Except.ok (e.encryptedKey, e.encryptedSecret, e.createdAt)) ∧
    (getSecretEntry demoStoredState 5 1 =
      Except.error VaultError.indexOutOfRange) :=
  ⟨(getSecretEntry_spec demoStoredState 5 0).2 (by decide),
   (getSecretEntry_spec demoStoredState 5 1).1.mpr (by decide)⟩

/-! ## Claim C7 -/

/-- Claim C7: a successful `storeSecret` by an owner appends the new entry at
index `getSecretCount(owner)` as of immediately before the call, and emits
exactly one `SecretStored` event carrying that owner, that index, and the block
timestamp, which also equals the new entry's `createdAt`. -/
theorem storeSecret_append_event (f : FromExternal) (env : Env)
    (st st' : VaultState) (ek es : Nat) (p : List Nat)
    (h : storeSecret f env st ek es p = Except.ok st') :
    ∃ k s, f ek p = some k ∧ f es p = some s ∧
      st'.events = st.events ++
        [⟨env.sender, getSecretCount st env.sender, env.timestamp⟩] ∧
      getSecretCount st' env.sender = getSecretCount st env.sender + 1 ∧
      (st'.entries env.sender)[getSecretCount st env.sender]? =
        some ⟨k, s, env.timestamp⟩ := by
  obtain ⟨k, s, hk, hs, hsender, _, _, hevents⟩ := storeSecret_ok_elim h
  refine ⟨k, s, hk, hs, hevents, ?_, ?_⟩
  · simp [getSecretCount, hsender]
  · rw [hsender, getSecretCount, List.getElem?_concat_length]

/-- Witness for claim C7: the concrete store appends at index 0 and emits the
single event `(owner 5, index 0, timestamp 1000)`. -/
theorem storeSecret_append_event_witness :
    ∃ k s, demoFromExternal 1 [3] = some k ∧ demoFromExternal 2 [3] = some s ∧
      demoStoredState.events = initialVaultState.events ++
        [⟨demoEnv.sender, getSecretCount initialVaultState demoEnv.sender,
          demoEnv.timestamp⟩] ∧
      getSecretCount demoStoredState demoEnv.sender =
        getSecretCount initialVaultState demoEnv.sender + 1 ∧
      (demoStoredState.entries demoEnv.sender)[getSecretCount initialVaultState
        demoEnv.sender]? = some ⟨k, s, demoEnv.timestamp⟩ :=
  storeSecret_append_event demoFromExternal demoEnv initialVaultState
    demoStoredState 1 2 [3] rfl

/-! ## Claim C8 -/

/-- Claim C8: entries are append-only and index-stable — a successful
`storeSecret` by any sender leaves every existing entry of every owner
unchanged, and leaves the count of every other owner unchanged. -/
theorem entries_append_only (f : FromExternal) (env : Env) (st st' : VaultState)
    (ek es : Nat) (p : List Nat)
    (h : storeSecret f env st ek es p = Except.ok st') :
    (∀ owner i, i < getSecretCount st owner →
      getSecretEntry st' owner i = getSecretEntry st owner i) ∧
    (∀ owner, owner ≠ env.sender →
      getSecretCount st' owner = getSecretCount st owner) := by
  obtain ⟨k, s, _, _, hsender, hother, _, _⟩ := storeSecret_ok_elim h
  constructor
  · intro owner i hi
    unfold getSecretCount at hi
    unfold getSecretEntry
    by_cases ho : owner = env.sender
    · subst ho
      rw [hsender, List.getElem?_append_left hi]
    · rw [hother owner ho]
  · intro owner ho
    unfold getSecretCount
    rw [hother owner ho]

/-- Witness for claim C8: after a second store by owner 6 on top of the
concrete stored state, owner 5's entry 0 and owner 5's count are unchanged. -/
theorem entries_append_only_witness :
    getSecretEntry (step demoFromExternal demoStoredState
        (Call.store demoEnv2 1 2 [3])).1 5 0 =
      getSecretEntry demoStoredState 5 0 ∧
    getSecretCount (step demoFromExternal demoStoredState
        (Call.store demoEnv2 1 2 [3])).1 5 =
      getSecretCount demoStoredState 5 :=
  ⟨(entries_append_only demoFromExternal demoEnv2 demoStoredState
      (step demoFromExternal demoStoredState (Call.store demoEnv2 1 2 [3])).1
      1 2 [3] rfl).1 5 0 (by decide),
   (entries_append_only demoFromExternal demoEnv2 demoStoredState
      (step demoFromExternal demoStoredState (Call.store demoEnv2 1 2 [3])).1
      1 2 [3] rfl).2 5 (by decide)⟩

/-! ## Claim C9 -/

/-- Claim C9: `getSecretCount` and `getSecretEntry` are pure reads — the
post-state equals the pre-state, and the output is the same for any two calling
principals. -/
theorem getters_pure (f : FromExternal) (st : VaultState)
    (caller1 caller2 owner index : Nat) :
    (step f st (Call.count caller1 owner)).1 = st ∧
    (step f st (Call.entry caller1 owner index)).1 = st ∧
    (step f st (Call.count caller1 owner)).2 =
      (step f st (Call.count caller2 owner)).2 ∧
    (step f st (Call.entry caller1 owner index)).2 =
      (step f st (Call.entry caller2 owner index)).2 := by
  refine ⟨rfl, ?_, rfl, rfl⟩
  cases hg : getSecretEntry st owner index <;> simp [step, hg]

/-! ## Claim C6 -/

/-- Claim C6: client-side validation rejects exactly the invalid secrets before
any network call — `encodeSecretToUint256` succeeds precisely on secrets of 1
to 31 UTF-8 bytes, the UI check `isSecretValid` accepts precisely the same
secrets, an empty secret and an over-31-byte secret are rejected with the
corresponding errors. -/
theorem clientValidation_exact (secret : List Nat) :
    ((∃ v, encodeSecretToUint256 secret = Except.ok v) ↔
      (1 ≤ secret.length ∧ secret.length ≤ 31)) ∧
    (isSecretValid secret = true ↔ (1 ≤ secret.length ∧ secret.length ≤ 31)) ∧
    (secret.length = 0 →
      encodeSecretToUint256 secret = Except.error EncodeError.emptySecret) ∧
    (secret.length > 31 →
      encodeSecretToUint256 secret = Except.error EncodeError.tooLong) := by
  have hMAX : MAX_SECRET_BYTES = 31 := rfl
  refine ⟨⟨?_, ?_⟩, ?_, ?_, ?_⟩
  · rintro ⟨v, hv⟩
    by_cases h0 : secret.length = 0
    · simp [encodeSecretToUint256, h0] at hv
    · by_cases h31 : secret.length > 31
      · simp [encodeSecretToUint256, h0, hMAX, h31] at hv
      · omega
  · rintro ⟨ha, hb⟩
    exact ⟨_, encodeSecretToUint256_ok secret (by omega) hb⟩
  · simp only [isSecretValid, getUtf8ByteLength, MAX_SECRET_BYTES,
      Bool.and_eq_true, decide_eq_true_eq]
    omega
  · intro h0
    simp [encodeSecretToUint256, h0]
  · intro h31
    have h0 : ¬ secret.length = 0 := by omega
    simp [encodeSecretToUint256, h0, hMAX, h31]

/-- Witness for claim C6 at the boundaries: a 31-byte secret is accepted, a
32-byte secret and the empty secret are rejected, and the UI check accepts the
31-byte secret. -/
theorem clientValidation_exact_witness :
    (∃ v, encodeSecretToUint256 (List.replicate 31 97) = Except.ok v) ∧
    encodeSecretToUint256 (List.replicate 32 97) =
      Except.error EncodeError.tooLong ∧
    encodeSecretToUint256 [] = Except.error EncodeError.emptySecret ∧
    isSecretValid (List.replicate 31 97) = true :=
  ⟨(clientValidation_exact (List.replicate 31 97)).1.mpr (by decide),
   (clientValidation_exact (List.replicate 32 97)).2.2.2 (by decide),
   (clientValidation_exact []).2.2.1 (by decide),
   (clientValidation_exact (List.replicate 31 97)).2.1.mpr (by decide)⟩

/-! ## Claim C10 -/

/-- Claim C10: the UI helper `decodeSecretValue` is total on 256-bit values —
it returns the decoded bytes32 text when the value's 32-byte encoding is a
valid null-terminated bytes32 string, and otherwise returns the raw 32-byte hex
representation. -/
theorem decodeSecretValue_total (value : Nat) (h : value < 2 ^ 256) :
    decodeSecretValue value =
      some (match decodeBytes32String (natToBeBytes 32 value) with
        | some s => DecodedSecret.text s
        | none => DecodedSecret.hex (natToBeBytes 32 value)) := by
  have h' : value < 256 ^ 32 := by
    have h8 : (256 : Nat) ^ 32 = 2 ^ 256 := by
      calc (256 : Nat) ^ 32 = (2 ^ 8) ^ 32 := by norm_num
        _ = 2 ^ 256 := by rw [← pow_mul]
    omega
  unfold decodeSecretValue toBeHex
  rw [if_pos h']
  cases hd : decodeBytes32String (natToBeBytes 32 value) <;> simp [hd]

/-- Witness for claim C10: the value 0 decodes as the empty text (all-zero
bytes32), and the value 5 (no null terminator) falls back to its raw hex. -/
theorem decodeSecretValue_total_witness :
    decodeSecretValue 0 =
      some (match decodeBytes32String (natToBeBytes 32 0) with
        | some s => DecodedSecret.text s
        | none => DecodedSecret.hex (natToBeBytes 32 0)) ∧
    decodeSecretValue 5 =
      some (match decodeBytes32String (natToBeBytes 32 5) with
        | some s => DecodedSecret.text s
        | none => DecodedSecret.hex (natToBeBytes 32 5)) :=
  ⟨decodeSecretValue_total 0 (by norm_num),
   decodeSecretValue_total 5 (by norm_num)⟩

end FheSecret
